import Mathlib

/-!
Verification development for the revel routing core (router.go).

The Go source is shallowly embedded below.  Strings are modelled as Lean
strings (sequences of characters); all inputs relevant to the routing
grammar are ASCII, where Go byte indices coincide with character indices.
External collaborators (the pathtree prefix tree dependency, the Go
standard library CSV reader, the module loader and the action registry)
are not part of router.go; they are modelled from the specification and
marked as such, or passed as explicit function parameters.
-/

namespace Revel

/-- Uppercase an ASCII letter, other characters unchanged (models the
effect of Go strings.ToUpper on the ASCII method keywords used here). -/
def upChar (c : Char) : Char :=
  if 'a' ≤ c ∧ c ≤ 'z' then Char.ofNat (c.toNat - 32) else c

/-- Models Go strings.ToUpper restricted to ASCII input. -/
def goToUpper (s : String) : String :=
  String.mk (s.data.map upChar)

/-- Whitespace recognised by Go strings.TrimSpace (ASCII subset). -/
def isGoSpace (c : Char) : Bool :=
  c == ' ' || c == '\t' || c == '\n' || c == '\x0b' || c == '\x0c' || c == '\r'

/-- Models Go strings.TrimSpace on ASCII input. -/
def goTrimSpace (s : String) : String :=
  String.mk (((s.data.dropWhile isGoSpace).reverse.dropWhile isGoSpace).reverse)

/-- Split a character list on a separator character; always returns at
least one group.  Matches Go strings.Split for a one-character separator. -/
def splitOnChar (c : Char) : List Char → List (List Char)
  | [] => [[]]
  | a :: rest =>
    match splitOnChar c rest with
    | [] => [[]]
    | g :: gs => if a == c then [] :: g :: gs else (a :: g) :: gs

/-- Models Go strings.Split for a one-character separator. -/
def goSplit (s : String) (c : Char) : List String :=
  (splitOnChar c s.data).map String.mk

/-- List version of the string-starts-with test. -/
def listPfx : List Char → List Char → Bool
  | [], _ => true
  | _ :: _, [] => false
  | a :: as, b :: bs => a == b && listPfx as bs

/-- Models Go strings.HasPrefix. -/
def strHasPfx (p s : String) : Bool :=
  listPfx p.data s.data

/-- First n characters of a string (Go s[:n] when n is in range). -/
def strTake (s : String) (n : Nat) : String :=
  String.mk (s.data.take n)

/-- Characters of a string from position n (Go s[n:] when n is in range). -/
def strDrop (s : String) (n : Nat) : String :=
  String.mk (s.data.drop n)

/-- Go s[:n] as a fallible operation: none models the runtime panic
(slice bounds out of range) when n exceeds the string length. -/
def sliceTo (s : String) (n : Nat) : Option String :=
  if n ≤ s.data.length then some (strTake s n) else none

/-- Index of the last occurrence of a character in a list. -/
def lastIdx (c : Char) : List Char → Option Nat
  | [] => none
  | a :: rest =>
    match lastIdx c rest with
    | some i => some (i + 1)
    | none => if a == c then some 0 else none

/-- Models Go strings.LastIndex(s, ":") (none stands for -1). -/
def lastColon (s : String) : Option Nat :=
  lastIdx ':' s.data

/-- Index of the first occurrence of a character in a list. -/
def firstIdx (c : Char) : List Char → Option Nat
  | [] => none
  | a :: rest =>
    if a == c then some 0
    else match firstIdx c rest with
      | some i => some (i + 1)
      | none => none

/-- Scan the tail of a quoted CSV field (after the opening quote); a
doubled quote is an escaped quote, a single quote closes the field.
None models a parse error (unterminated quote). -/
def scanQuoted : List Char → Option (List Char × List Char)
  | [] => none
  | '"' :: '"' :: rest => (scanQuoted rest).map (fun fr => ('"' :: fr.1, fr.2))
  | '"' :: rest => some ([], rest)
  | c :: rest => (scanQuoted rest).map (fun fr => (c :: fr.1, fr.2))

/-- Scan an unquoted CSV field up to the next comma or end of input.
A bare quote inside the field is a parse error (none), matching the Go
csv reader with default settings. -/
def scanBare : List Char → Option (List Char × List Char)
  | [] => some ([], [])
  | ',' :: rest => some ([], ',' :: rest)
  | '"' :: _ => none
  | c :: rest => (scanBare rest).map (fun fr => (c :: fr.1, fr.2))

/-- Field loop for one CSV record, with fuel (each step consumes at
least one character besides the final field). -/
def csvFieldsAux : Nat → List Char → Option (List String)
  | 0, _ => none
  | fuel + 1, cs =>
    match cs with
    | '"' :: rest =>
      match scanQuoted rest with
      | none => none
      | some (f, r) =>
        match r with
        | [] => some [String.mk f]
        | ',' :: r2 => (csvFieldsAux fuel r2).map (String.mk f :: ·)
        | _ => none
    | _ =>
      match scanBare cs with
      | none => none
      | some (f, r) =>
        match r with
        | [] => some [String.mk f]
        | ',' :: r2 => (csvFieldsAux fuel r2).map (String.mk f :: ·)
        | _ => none

/-- Modelled from the spec: the fixed arguments of a route are parsed as
one CSV-formatted record (Go encoding/csv Read, a collaborator outside
router.go).  Empty input is io.EOF and a parse error is only logged; in
both cases NewRoute keeps a nil field list, so this model returns []. -/
def csvRead (s : String) : List String :=
  if s.data.isEmpty then []
  else
    match csvFieldsAux (s.data.length + 1) s.data with
    | some fs => fs
    | none => []

/-- Embeds the Route struct of router.go.  The leaf pointer is not
carried: it always denotes the tree entry registered under TreePath and
the embedding of Reverse recomputes it from TreePath. -/
structure Route where
  Method : String
  Path : String
  Action : String
  ControllerName : String
  MethodName : String
  FixedParams : List String
  TreePath : String
  routesPath : String
  line : Nat
deriving DecidableEq, Repr

/-- Embeds treePath of router.go. -/
def treePath (method path : String) : String :=
  if method = "*" then "/" ++ ":METHOD" ++ path else "/" ++ method ++ path

/-- Embeds untreePath of router.go.  Note the first component reproduces
the source faithfully (it is off by one, but no caller reads it). -/
def untreePath (path : String) : String × String :=
  if path.data.length = 0 then (path, "/")
  else
    match firstIdx '/' (strDrop path 1).data with
    | none => (path, "/")
    | some split => (strTake path split, strDrop path (split + 1))

/-- Strip one trailing semicolon from an action part, exactly as
NewRoute does (only when the part has more than one character). -/
def stripSemi (s : String) : String :=
  if 1 < s.data.length ∧ s.data.getLast? = some ';' then strTake s (s.data.length - 1) else s

/-- Embeds NewRoute of router.go.  A CSV error is only logged in the
source; the path check logs and returns early, leaving the controller
and method names empty; the action split runs on every dot. -/
def NewRoute (method path action fixedArgs routesPath : String) (line : Nat) : Route :=
  let fargs := csvRead fixedArgs
  let r : Route :=
    { Method := goToUpper method
      Path := path
      Action := action
      ControllerName := ""
      MethodName := ""
      FixedParams := fargs
      TreePath := treePath (goToUpper method) path
      routesPath := routesPath
      line := line }
  if strHasPfx "/" r.Path = false then r
  else
    match goSplit action '.' with
    | [a0, a1] => { r with ControllerName := stripSemi a0, MethodName := stripSemi a1 }
    | _ => r

/-- Modelled from the spec: split a tree key into its slash-separated
segments (the pathtree dependency is not in src/). -/
def segsOf (p : String) : List String :=
  ((splitOnChar '/' p.data).map String.mk).drop 1

/-- Modelled from the spec: a leaf of the prefix tree, carrying the
pattern it was registered under and the route stored as its value. -/
structure Leaf where
  pattern : List String
  route : Route
deriving DecidableEq, Repr

/-- Modelled from the spec: the prefix tree, kept as its leaves in
registration order; the first registered pattern that matches a request
wins (declaration order is the tie-break per the spec). -/
structure PathTree where
  entries : List Leaf
deriving DecidableEq, Repr

/-- Modelled from the spec: pathtree.New(). -/
def PathTree.new : PathTree := ⟨[]⟩

/-- Modelled from the spec: match a pattern against the segments of a
request path, returning the values captured by placeholder segments
(segments starting with a colon) in order. -/
def matchSegs : List String → List String → Option (List String)
  | [], [] => some []
  | p :: ps, x :: xs =>
    if strHasPfx ":" p then (matchSegs ps xs).map (x :: ·)
    else if p = x then matchSegs ps xs else none
  | _, _ => none

/-- Placeholder names of a pattern, in order (Leaf.Wildcards). -/
def wildNames (pat : List String) : List String :=
  (pat.filter (fun s => strHasPfx ":" s)).map (fun s => strDrop s 1)

/-- Modelled from the spec: Node.Add registers a pattern; registering a
structurally conflicting (here: duplicate) pattern is an error (none). -/
def PathTree.Add (t : PathTree) (key : String) (r : Route) : Option PathTree :=
  if t.entries.any (fun l => l.pattern == segsOf key) then none
  else some ⟨t.entries ++ [⟨segsOf key, r⟩]⟩

/-- First leaf in registration order whose pattern matches the given
path segments, with its captured expansions. -/
def findLeaf (p : List String) : List Leaf → Option (Leaf × List String)
  | [] => none
  | l :: rest =>
    match matchSegs l.pattern p with
    | some e => some (l, e)
    | none => findLeaf p rest

/-- Modelled from the spec: Node.Find returns the first registered leaf
whose pattern matches the path, with its captured expansions. -/
def PathTree.Find (t : PathTree) (p : String) : Option (Leaf × List String) :=
  findLeaf (segsOf p) t.entries

/-- Embeds the Router struct of router.go. -/
structure Router where
  Routes : List Route
  Tree : PathTree
  path : String
deriving Repr

/-- Route parameters (url.Values): an unordered string-keyed map with
list values, modelled as an association list with replace-on-set. -/
abbrev Params := List (String × List String)

/-- Map assignment params[k] = v (replace an existing key, else add). -/
def setParam (k : String) (v : List String) : Params → Params
  | [] => [(k, v)]
  | (k2, v2) :: rest => if k2 = k then (k, v) :: rest else (k2, v2) :: setParam k v rest

/-- Map lookup params[k]; none models the nil slice a Go map returns
for an absent key. -/
def getParam (k : String) : Params → Option (List String)
  | [] => none
  | (k2, v) :: rest => if k2 = k then some v else getParam k rest

/-- Embeds the parameter-map construction of Router.Route: one singleton
value per captured expansion, keyed by the leaf wildcard names. -/
def buildParams (names expansions : List String) : Params :=
  (names.zip expansions).foldl (fun ps nv => setParam nv.1 [nv.2] ps) []

/-- Embeds the RouteMatch struct of router.go. -/
structure RouteMatch where
  Action : String
  ControllerName : String
  MethodName : String
  FixedParams : List String
  Params : Params
deriving DecidableEq, Repr

/-- Embeds the shared notFound sentinel of router.go: only Action is
set, every other field is the Go zero value. -/
def notFound : RouteMatch :=
  { Action := "404", ControllerName := "", MethodName := "", FixedParams := [], Params := [] }

/-- An incoming request, reduced to the two fields Router.Route reads
(req.Method and req.URL.Path). -/
structure Request where
  Method : String
  Path : String
deriving DecidableEq, Repr

/-- Result of Router.Route: nil (no leaf), a RouteMatch, or a runtime
panic from indexing a nil parameter slice. -/
inductive RouteResult where
  | noMatch
  | panicked
  | found (m : RouteMatch)
deriving DecidableEq, Repr

/-- Embeds the variablized-action substitution of Router.Route: if the
name contains a colon, the text after the last colon is looked up in
params and replaces the tail from the colon on (the whole name when the
colon is leading).  None models the params[name][0] panic when the
placeholder was not captured. -/
def substHalf (name : String) (params : Params) : Option String :=
  match lastColon name with
  | none => some name
  | some pos =>
    match getParam (strDrop name (pos + 1)) params with
    | none => none
    | some [] => none
    | some (v :: _) => if pos = 0 then some v else some (strTake name pos ++ v)

/-- Embeds Router.Route of router.go. -/
def Router.Route (router : Router) (req : Request) : RouteResult :=
  match router.Tree.Find (treePath req.Method req.Path) with
  | none => .noMatch
  | some (l, expansions) =>
    let route := l.route
    let params := buildParams (wildNames l.pattern) expansions
    if route.Action = "404" then .found notFound
    else
      match substHalf route.ControllerName params with
      | none => .panicked
      | some controllerName =>
        match substHalf route.MethodName params with
        | none => .panicked
        | some methodName =>
          .found
            { Action := ""
              ControllerName := controllerName
              MethodName := methodName
              FixedParams := route.FixedParams
              Params := params }

/-- Embeds the revel Error values produced by the router (the fields the
router sets; SourceLines and Path are omitted, they only feed logging). -/
structure RError where
  Title : String
  Description : String
  Line : Nat
deriving DecidableEq, Repr

/-- Embeds routeError of router.go for a plain (non-revel) error. -/
def routeError (msg : String) (n : Nat) : RError :=
  { Title := "Route validation error", Description := msg, Line := n + 1 }

/-- Embeds validateRoute of router.go.  The action registry
(Controller.SetAction) is outside this file and is passed in as the
collaborator ae, returning an error message for unknown actions. -/
def validateRoute (ae : String → String → Option String) (route : Route) : Option String :=
  if route.Action = "404" then none
  else
    match goSplit route.Action '.' with
    | [p0, p1] =>
      if lastColon p0 ≠ none ∨ lastColon p1 ≠ none then none
      else ae p0 p1
    | parts =>
      some ("Expected two parts (Controller.Action), but got " ++ toString parts.length ++ ": " ++ route.Action)

/-- Embeds the loop body of updateTree: register every route under its
TreePath into a fresh tree, plus a HEAD alias for every GET route; on a
registration error the partially built tree is what router.Tree holds. -/
def updateTreeAux : PathTree → List Route → PathTree × Option RError
  | t, [] => (t, none)
  | t, route :: rest =>
    match t.Add route.TreePath route with
    | none => (t, some (routeError "duplicate path" route.line))
    | some t1 =>
      if route.Method = "GET" then
        match t1.Add (treePath "HEAD" route.Path) route with
        | none => (t1, some (routeError "duplicate path" route.line))
        | some t2 => updateTreeAux t2 rest
      else updateTreeAux t1 rest

/-- Embeds Router.updateTree of router.go: the method reads
router.Routes, replaces router.Tree by a fresh tree it fills in place,
and returns the error if any registration fails. -/
def updateTree (routes : List Route) : PathTree × Option RError :=
  updateTreeAux PathTree.new routes

/-- One piece of the route-line regular expression routePattern. -/
inductive Piece where
  | alts (ss : List String)
  | optc (c : Char)
  | litc (c : Char)
  | starNot (bad : List Char)
  | plusIn (good : List Char)
  | plusNot (bad : List Char)
  | starIn (good : List Char)
  | dotStar
deriving Repr

/-- Case-insensitive character-list comparison used by the (?i) flag. -/
def ciPfx : List Char → List Char → Bool
  | [], _ => true
  | _ :: _, [] => false
  | a :: as, b :: bs => (upChar a == upChar b) && ciPfx as bs

/-- Length of the longest run of characters satisfying p. -/
def runLen (p : Char → Bool) : List Char → Nat
  | [] => 0
  | c :: cs => if p c then runLen p cs + 1 else 0

/-- The list n, n-1, ..., 0: greedy quantifiers try longest first. -/
def descRange : Nat → List Nat
  | 0 => [0]
  | n + 1 => (n + 1) :: descRange n

/-- Candidate (consumed, rest) splits for one regex piece, in the order
a leftmost-first (Perl-style, as documented for Go regexp submatches)
backtracking search explores them. -/
def candidates : Piece → List Char → List (List Char × List Char)
  | .alts ss, cs =>
    ss.filterMap (fun a => if ciPfx a.data cs then some (cs.take a.data.length, cs.drop a.data.length) else none)
  | .optc c, cs =>
    match cs with
    | c2 :: rest => if c2 == c then [([c2], rest), ([], cs)] else [([], cs)]
    | [] => [([], [])]
  | .litc c, cs =>
    match cs with
    | c2 :: rest => if c2 == c then [([c2], rest)] else []
    | [] => []
  | .starNot bad, cs =>
    (descRange (runLen (fun c => !(bad.contains c)) cs)).map (fun k => (cs.take k, cs.drop k))
  | .plusIn good, cs =>
    ((descRange (runLen (fun c => good.contains c) cs)).filter (fun k => k != 0)).map
      (fun k => (cs.take k, cs.drop k))
  | .plusNot bad, cs =>
    ((descRange (runLen (fun c => !(bad.contains c)) cs)).filter (fun k => k != 0)).map
      (fun k => (cs.take k, cs.drop k))
  | .starIn good, cs =>
    (descRange (runLen (fun c => good.contains c) cs)).map (fun k => (cs.take k, cs.drop k))
  | .dotStar, cs =>
    (descRange (runLen (fun c => c != '\n') cs)).map (fun k => (cs.take k, cs.drop k))

/-- Anchored backtracking match of a piece sequence against a whole
line, returning the characters consumed by each piece. -/
def matchPieces : List Piece → List Char → Option (List (List Char))
  | [], cs => if cs.isEmpty then some [] else none
  | p :: ps, cs => (candidates p cs).findSome? (fun cr => (matchPieces ps cr.2).map (cr.1 :: ·))

/-- The pieces of routePattern in router.go:
method alternation, optional parenthesised constraint, whitespace,
path (anything ending in a slash then a non-space tail), whitespace,
action, optional parenthesised fixed arguments, trailing whitespace. -/
def routePieces : List Piece :=
  [Piece.alts ["GET", "POST", "PUT", "DELETE", "PATCH", "OPTIONS", "HEAD", "WS", "*"],
   Piece.optc '(', Piece.starNot [')'], Piece.optc ')', Piece.plusIn [' ', '\t'],
   Piece.dotStar, Piece.litc '/', Piece.starNot [' ', '\t'],
   Piece.plusIn [' ', '\t'], Piece.plusNot [' ', '\t', '('],
   Piece.optc '(', Piece.starNot [')'], Piece.optc ')', Piece.starIn [' ', '\t']]

/-- Embeds parseRouteLine of router.go: the submatches are the method
keyword, the path (regex group 4 spans three pieces), the action and
the raw fixed arguments. -/
def parseRouteLine (line : String) : Option (String × String × String × String) :=
  match matchPieces routePieces line.data with
  | some [g1, _, _, _, _, d6, s7, g8, _, g10, _, g12, _, _] =>
    some (String.mk g1, String.mk (d6 ++ s7 ++ g8), String.mk g10, String.mk g12)
  | _ => none

/-- Embeds the per-line loop of parseRoutes.  The module collaborator mr
stands for getModuleRoutes (module loading is outside router.go); it
receives the module name and the validate flag.  A validation failure
aborts the whole parse with a routeError carrying the line number. -/
def parseRoutesLines (mr : String → Bool → Except RError (List Route))
    (ae : String → String → Option String) (routesPath : String) (validate : Bool) :
    Nat → List String → Except RError (List Route)
  | _, [] => .ok []
  | n, rawLine :: rest =>
    let line := goTrimSpace rawLine
    if line.data.isEmpty || line.data.head? == some '#' then
      parseRoutesLines mr ae routesPath validate (n + 1) rest
    else if strHasPfx "module:" line then
      match mr (strDrop line 7) validate with
      | .error e => .error e
      | .ok ms =>
        match parseRoutesLines mr ae routesPath validate (n + 1) rest with
        | .error e => .error e
        | .ok rs => .ok (ms ++ rs)
    else
      match parseRouteLine line with
      | none => parseRoutesLines mr ae routesPath validate (n + 1) rest
      | some (method, p, action, fixedArgs) =>
        let route := NewRoute method p action fixedArgs routesPath n
        if validate then
          match validateRoute ae route with
          | some msg => .error (routeError msg n)
          | none =>
            match parseRoutesLines mr ae routesPath validate (n + 1) rest with
            | .error e => .error e
            | .ok rs => .ok (route :: rs)
        else
          match parseRoutesLines mr ae routesPath validate (n + 1) rest with
          | .error e => .error e
          | .ok rs => .ok (route :: rs)

/-- Embeds parseRoutes of router.go. -/
def parseRoutes (mr : String → Bool → Except RError (List Route))
    (ae : String → String → Option String) (routesPath content : String) (validate : Bool) :
    Except RError (List Route) :=
  parseRoutesLines mr ae routesPath validate 0 (goSplit content '\n')

/-- Embeds parseRoutesFile of router.go; contents is the result of the
file read (none models a read error such as a missing file). -/
def parseRoutesFile (mr : String → Bool → Except RError (List Route))
    (ae : String → String → Option String) (routesPath : String)
    (contents : Option String) (validate : Bool) : Except RError (List Route) :=
  match contents with
  | none => .error { Title := "Failed to load routes file", Description := "read error", Line := 0 }
  | some c => parseRoutes mr ae routesPath c validate

/-- Embeds Router.Refresh of router.go.  The Go multi-assignment
router.Routes, err = parseRoutesFile(...) overwrites Routes even on
error (with the nil list); on an updateTree error the new Routes stay
and the Tree is the partially built one. -/
def Router.Refresh (router : Router) (mr : String → Bool → Except RError (List Revel.Route))
    (ae : String → String → Option String) (contents : Option String) :
    Router × Option RError :=
  match parseRoutesFile mr ae router.path contents true with
  | .error e => ({ router with Routes := [] }, some e)
  | .ok rs =>
    match updateTree rs with
    | (t, e) => ({ router with Routes := rs, Tree := t }, e)

/-- Embeds the ActionDefinition struct of router.go. -/
structure ActionDefinition where
  Host : String
  Method : String
  Url : String
  Action : String
  Star : Bool
  Args : List (String × String)
deriving DecidableEq, Repr

/-- Result of Router.Reverse: nil for a malformed action, nil after an
unsuccessful scan, a runtime panic from slicing the requested identifier
beyond its length, or an ActionDefinition. -/
inductive ReverseResult where
  | invalidAction
  | panicked
  | noRoute
  | found (a : ActionDefinition)
deriving DecidableEq, Repr

/-- Map assignment argValues[k] = v for the string-to-string map. -/
def setArg (k v : String) : List (String × String) → List (String × String)
  | [] => [(k, v)]
  | (k2, v2) :: rest => if k2 = k then (k, v) :: rest else (k2, v2) :: setArg k v rest

/-- Map lookup argValues[k]. -/
def getArg (k : String) : List (String × String) → Option String
  | [] => none
  | (k2, v) :: rest => if k2 = k then some v else getArg k rest

/-- Remove a key from the argument map (a path placeholder consumed it). -/
def removeArg (k : String) : List (String × String) → List (String × String)
  | [] => []
  | (k2, v) :: rest => if k2 = k then removeArg k rest else (k2, v) :: removeArg k rest

/-- Modelled from the spec: Node.Reverse walks the leaf pattern,
substituting argument values for placeholder segments; it returns the
rebuilt path, the arguments not consumed by the path, and the names of
placeholders with no supplied value (left in place in the path). -/
def treeReverseAux : List String → List (String × String) → String × List (String × String) × List String
  | [], args => ("", args, [])
  | seg :: rest, args =>
    if strHasPfx ":" seg then
      match getArg (strDrop seg 1) args with
      | some v =>
        let r := treeReverseAux rest (removeArg (strDrop seg 1) args)
        ("/" ++ v ++ r.1, r.2.1, r.2.2)
      | none =>
        let r := treeReverseAux rest args
        ("/" ++ seg ++ r.1, r.2.1, strDrop seg 1 :: r.2.2)
    else
      let r := treeReverseAux rest args
      ("/" ++ seg ++ r.1, r.2.1, r.2.2)

/-- Insert a key-value pair into a key-sorted pair list. -/
def insertPair (p : String × String) : List (String × String) → List (String × String)
  | [] => [p]
  | q :: qs => if q.1 < p.1 then q :: insertPair p qs else p :: q :: qs

/-- Sort pairs by key (url.Values.Encode emits keys in sorted order). -/
def sortPairs : List (String × String) → List (String × String)
  | [] => []
  | p :: ps => insertPair p (sortPairs ps)

/-- Models url.Values.Encode for singleton values: key=value pairs in
key order joined by ampersands (percent-escaping is not modelled; the
inputs exercised here are URL-safe). -/
def encodeQuery (qs : List (String × String)) : String :=
  String.intercalate "&" ((sortPairs qs).map (fun p => p.1 ++ "=" ++ p.2))

/-- Go strings.LastIndex result as an Int (-1 when absent), as the
wildcard positions are used in Router.Reverse. -/
def wcIdx (s : String) : Int :=
  match lastColon s with
  | none => -1
  | some i => Int.ofNat i

/-- Embeds the descriptor scan of Router.Reverse, route by route in
declaration order.  The second source check compares the route name
lengths with their own colon positions (always false, reproduced
faithfully); the third check slices the requested halves and panics when
a half is shorter than the route prefix being compared. -/
def reverseLoop (controllerName methodName action : String)
    (argValues : List (String × String)) : List Route → ReverseResult
  | [] => .noRoute
  | route :: rest =>
    if route.ControllerName = "" ∨ route.MethodName = "" then
      reverseLoop controllerName methodName action argValues rest
    else
      let cw : Int := wcIdx route.ControllerName
      let mw : Int := wcIdx route.MethodName
      if (cw = -1 ∧ route.ControllerName ≠ controllerName) ∨
         (mw = -1 ∧ route.MethodName ≠ methodName) then
        reverseLoop controllerName methodName action argValues rest
      else if (0 < cw ∧ (route.ControllerName.data.length : Int) ≤ cw) ∨
              (0 < mw ∧ (route.MethodName.data.length : Int) ≤ mw) then
        reverseLoop controllerName methodName action argValues rest
      else
        match (if 0 < cw then sliceTo controllerName cw.toNat else some "") with
        | none => .panicked
        | some cSlice =>
          if 0 < cw ∧ strTake route.ControllerName cw.toNat ≠ cSlice then
            reverseLoop controllerName methodName action argValues rest
          else
            match (if 0 < mw then sliceTo methodName mw.toNat else some "") with
            | none => .panicked
            | some mSlice =>
              if 0 < mw ∧ strTake route.MethodName mw.toNat ≠ mSlice then
                reverseLoop controllerName methodName action argValues rest
              else
                let a1 :=
                  if cw ≠ -1 then
                    setArg (strDrop route.ControllerName (cw.toNat + 1))
                      (strDrop controllerName cw.toNat) argValues
                  else argValues
                let a2 :=
                  if mw ≠ -1 then
                    setArg (strDrop route.MethodName (mw.toNat + 1))
                      (strDrop methodName mw.toNat) a1
                  else a1
                let tr := treeReverseAux (segsOf route.TreePath) a2
                let url2 := (untreePath tr.1).2
                let qv := tr.2.1
                let url3 := if 0 < qv.length then url2 ++ "?" ++ encodeQuery qv else url2
                ReverseResult.found
                  { Host := "TODO"
                    Method := if route.Method = "*" then "GET" else route.Method
                    Url := url3
                    Action := action
                    Star := route.Method = "*"
                    Args := a2 }

/-- Embeds Router.Reverse of router.go. -/
def Router.Reverse (router : Router) (action : String)
    (argValues : List (String × String)) : ReverseResult :=
  match goSplit action '.' with
  | [controllerName, methodName] =>
    reverseLoop controllerName methodName action argValues router.Routes
  | _ => .invalidAction

/-- A router whose table was built from the given descriptor list, as
updateTree leaves it after a successful rebuild. -/
def mkRouter (rs : List Route) : Router :=
  { Routes := rs, Tree := (updateTree rs).1, path := "" }

deriving instance DecidableEq for Except

/-- Module collaborator that resolves no module (contributes no routes,
like an inactive module). -/
def mrNone : String → Bool → Except RError (List Revel.Route) :=
  fun _ _ => .ok []

/-- Action-registry collaborator for which every action exists. -/
def aeAll : String → String → Option String :=
  fun _ _ => none

/-- Fixture for claim C1: a live route. -/
def c1_route : Route := NewRoute "GET" "/a" "A.B" "" "" 0

/-- Fixture for claim C1: a router with a live table. -/
def c1_router : Router := mkRouter [c1_route]

/-- Fixture for claim C2: a route with a variablized controller. -/
def c2_route : Route := NewRoute "GET" "/admin/:ctrl" "Module:ctrl.Index" "" "" 0

/-- Fixture for claim C2. -/
def c2_router : Router := mkRouter [c2_route]

/-- Fixture for the C2 witness. -/
def c2w_route : Route := NewRoute "GET" "/admin/:cx" "Adm:cx.Show" "" "" 0

/-- Fixture for the C2 witness. -/
def c2w_router : Router := mkRouter [c2w_route]

/-- Fixture for claim C5: a variablized route declared before a literal
route whose controller name is shorter than the literal prefix of the
first one. -/
def c5_routes : List Route :=
  [NewRoute "GET" "/m/:a" "Module:ctrl.Index" "" "" 0, NewRoute "GET" "/ab" "Ab.Index" "" "" 1]

/-- Fixture for claim C6: an explicit HEAD route declared before a GET
route; both patterns match the path /x/b under the HEAD method key. -/
def c6_routes : List Route :=
  [NewRoute "HEAD" "/x/:y" "H.I" "" "" 0, NewRoute "GET" "/:z/b" "C.D" "" "" 1]

/-- Fixture for the C6 witness. -/
def c6w_route : Route := NewRoute "GET" "/w" "W.V" "" "" 0

/-- Fixture for claim C7: an explicit 404 route. -/
def c7_route : Route := NewRoute "GET" "/old/path" "404" "" "" 0

/-- Fixture for claim C7. -/
def c7_router : Router := mkRouter [c7_route]

/-- Fixture for claim C7: the tree leaf holding the 404 route. -/
def c7_leaf : Leaf := ⟨["GET", "old", "path"], c7_route⟩

/-- Fixture for claim C8: a method-wildcard route. -/
def c8_route : Route := NewRoute "*" "/x" "A.B" "" "" 0

/-- Fixture for claim C8. -/
def c8_router : Router := mkRouter [c8_route]

/-- Fixture for claim C9: a variablized controller on a path with no
placeholder, so the placeholder name is never captured. -/
def c9_route : Route := NewRoute "GET" "/x" ":c.Show" "" "" 0

/-- Fixture for claim C10: an explicit 404 route with a path wildcard
and declared fixed arguments. -/
def c10_route : Route := NewRoute "GET" "/old/:x" "404" "a,b" "" 0

/-- C1 counterexample: Refresh is not all-or-nothing.  A Refresh that
fails because the routes file is missing returns an error, yet the
Routes list observed afterwards is the nil list, not the previously
active one (the Go multi-assignment overwrites router.Routes before the
error check). -/
theorem c1_refresh_counterexample :
    ((c1_router.Refresh mrNone aeAll none).2).isSome = true ∧
    (c1_router.Refresh mrNone aeAll none).1.Routes ≠ c1_router.Routes := by
  decide

/-- C2 counterexample: for route GET /admin/:ctrl Module:ctrl.Index and
path /admin/users, the resolved controller is Moduleusers - the colon is
consumed by the substitution - not Module:users as the claim states. -/
theorem c2_substitution_counterexample :
    c2_router.Route ⟨"GET", "/admin/users"⟩ =
      .found { Action := "", ControllerName := "Moduleusers", MethodName := "Index",
               FixedParams := [], Params := [("ctrl", ["users"])] } ∧
    ("Moduleusers" : String) ≠ "Module:users" := by
  decide

/-- C3 counterexample: the target A.B.C splits into three parts, not
two, so the namespace and member remain empty; the claim expected
namespace A and member B.C. -/
theorem c3_split_counterexample :
    (NewRoute "GET" "/x" "A.B.C" "" "" 0).ControllerName = "" ∧
    (NewRoute "GET" "/x" "A.B.C" "" "" 0).MethodName = "" ∧
    (goSplit "A.B.C" '.').length = 3 ∧
    (NewRoute "GET" "/x" "A.B.C" "" "" 0).ControllerName ≠ "A" := by
  decide

/-- C4 counterexample: the line GET a/b A.B parses, its path does not
start with a slash, yet the descriptor is accepted by parseRoutes with
validation on and registers in the tree without error. -/
theorem c4_path_counterexample :
    parseRoutes mrNone aeAll "conf/routes" "GET a/b A.B" true =
      .ok [NewRoute "GET" "a/b" "A.B" "" "conf/routes" 0] ∧
    strHasPfx "/" (NewRoute "GET" "a/b" "A.B" "" "conf/routes" 0).Path = false ∧
    (updateTree [NewRoute "GET" "a/b" "A.B" "" "conf/routes" 0]).2 = none := by
  decide

/-- C5: the reverse scan panics instead of skipping a non-matching
variablized route when the requested controller half is shorter than the
literal prefix of the route (the source guard compares the own name
length against its own colon index, which is never true, so the slice
controllerName[:controllerWildcard] is unguarded).  The later literal
route Ab.Index would match: alone in a table, Reverse resolves it. -/
theorem c5_reverse_panic :
    (mkRouter c5_routes).Reverse "Ab.Index" [] = .panicked ∧
    (mkRouter [NewRoute "GET" "/ab" "Ab.Index" "" "" 1]).Reverse "Ab.Index" [] =
      .found { Host := "TODO", Method := "GET", Url := "/ab", Action := "Ab.Index",
               Star := false, Args := [] } := by
  decide

/-- C6 counterexample: with an explicit HEAD route declared before a
GET route, a HEAD request for a path matching the pattern of the GET route
resolves to the earlier HEAD route, not to the alias of the GET descriptor,
so the HEAD match and the GET match disagree. -/
theorem c6_head_alias_counterexample :
    (updateTree c6_routes).2 = none ∧
    (mkRouter c6_routes).Route ⟨"GET", "/x/b"⟩ =
      .found { Action := "", ControllerName := "C", MethodName := "D",
               FixedParams := [], Params := [("z", ["x"])] } ∧
    (mkRouter c6_routes).Route ⟨"HEAD", "/x/b"⟩ =
      .found { Action := "", ControllerName := "H", MethodName := "I",
               FixedParams := [], Params := [("y", ["b"])] } ∧
    (mkRouter c6_routes).Route ⟨"HEAD", "/x/b"⟩ ≠ (mkRouter c6_routes).Route ⟨"GET", "/x/b"⟩ := by
  decide

/-- C1 amended: Refresh on error is not atomic.  When the routes file
cannot be read, the error is returned with the Tree untouched but the
Routes list overwritten by the nil parse result; when the rebuild fails
during tree registration, the newly parsed Routes stay installed and the
Tree is the partially built new tree, so the old table does not keep
serving. -/
theorem c1_refresh_error_behavior :
    (∀ (router : Router) (mr : String → Bool → Except RError (List Revel.Route))
       (ae : String → String → Option String),
       (router.Refresh mr ae none).2.isSome = true ∧
       (router.Refresh mr ae none).1.Routes = [] ∧
       (router.Refresh mr ae none).1.Tree = router.Tree) ∧
    ((c1_router.Refresh mrNone aeAll (some "GET /x A.B\nGET /x C.D")).2.isSome = true ∧
     (c1_router.Refresh mrNone aeAll (some "GET /x A.B\nGET /x C.D")).1.Routes ≠ [] ∧
     (c1_router.Refresh mrNone aeAll (some "GET /x A.B\nGET /x C.D")).1.Routes ≠ c1_router.Routes ∧
     (c1_router.Refresh mrNone aeAll (some "GET /x A.B\nGET /x C.D")).1.Tree ≠ c1_router.Tree) := by
  constructor
  · intro router mr ae
    exact ⟨rfl, rfl, rfl⟩
  · decide

/-- C7: an explicit 404 route yields the shared notFound value while an
unmatched path yields the nil result, and the two outcomes are distinct
ordinary values of the match result type. -/
theorem c7_explicit_404_distinct :
    (∀ (router : Router) (req : Request),
       router.Tree.Find (treePath req.Method req.Path) = none →
       router.Route req = .noMatch) ∧
    (∀ (router : Router) (req : Request) (l : Leaf) (exp : List String),
       router.Tree.Find (treePath req.Method req.Path) = some (l, exp) →
       l.route.Action = "404" →
       router.Route req = .found notFound) ∧
    RouteResult.found notFound ≠ RouteResult.noMatch := by
  refine ⟨?_, ?_, by decide⟩
  · intro router req h
    simp only [Router.Route, h]
  · intro router req l exp h h4
    simp only [Router.Route, h, h4, if_true]

/-- C7 witness at a concrete table: GET /old/path 404 matching its own
path gives the intentional not-found, /unknown gives the nil result. -/
theorem c7_explicit_404_distinct_witness :
    c7_router.Route ⟨"GET", "/old/path"⟩ = .found notFound ∧
    c7_router.Route ⟨"GET", "/unknown"⟩ = .noMatch :=
  ⟨c7_explicit_404_distinct.2.1 c7_router ⟨"GET", "/old/path"⟩ c7_leaf [] (by decide) (by decide),
   c7_explicit_404_distinct.1 c7_router ⟨"GET", "/unknown"⟩ (by decide)⟩

/-- C10: a match on a route whose raw action is the literal 404 returns
the shared sentinel whose Params, FixedParams, ControllerName and
MethodName are all empty, regardless of captured wildcards or declared
fixed arguments. -/
theorem c10_notfound_sentinel (router : Router) (req : Request) (l : Leaf) (exp : List String)
    (hfind : router.Tree.Find (treePath req.Method req.Path) = some (l, exp))
    (h404 : l.route.Action = "404") :
    router.Route req = .found notFound ∧
    notFound.Params = [] ∧ notFound.FixedParams = [] ∧
    notFound.ControllerName = "" ∧ notFound.MethodName = "" ∧ notFound.Action = "404" := by
  refine ⟨?_, rfl, rfl, rfl, rfl, rfl⟩
  simp only [Router.Route, hfind, h404, if_true]

/-- C10 witness: the 404 route has a wildcard capture and fixed
arguments a,b, and they are all absent from the returned sentinel. -/
theorem c10_notfound_sentinel_witness :
    (mkRouter [c10_route]).Route ⟨"GET", "/old/zzz"⟩ = .found notFound ∧
    c10_route.FixedParams = ["a", "b"] ∧ notFound.FixedParams = [] :=
  ⟨(c10_notfound_sentinel (mkRouter [c10_route]) ⟨"GET", "/old/zzz"⟩
      ⟨["GET", "old", ":x"], c10_route⟩ ["zzz"] (by decide) (by decide)).1,
   by decide, by decide⟩

/-- C9: if the controller or method name of the matched route contains a
colon whose placeholder name is not among the captured parameters, the
matcher panics (params[name][0] on an absent entry) instead of
returning a result. -/
theorem c9_uncaptured_placeholder_panics (router : Router) (req : Request) (l : Leaf)
    (exp : List String)
    (hfind : router.Tree.Find (treePath req.Method req.Path) = some (l, exp))
    (h404 : l.route.Action ≠ "404")
    (hbad :
      (∃ p, lastColon l.route.ControllerName = some p ∧
         getParam (strDrop l.route.ControllerName (p + 1))
           (buildParams (wildNames l.pattern) exp) = none) ∨
      (∃ p, lastColon l.route.MethodName = some p ∧
         getParam (strDrop l.route.MethodName (p + 1))
           (buildParams (wildNames l.pattern) exp) = none)) :
    router.Route req = .panicked := by
  rcases hbad with ⟨p, hp, hn⟩ | ⟨p, hp, hn⟩
  · simp only [Router.Route, hfind]
    rw [if_neg h404]
    simp only [substHalf, hp, hn]
  · cases hc : substHalf l.route.ControllerName (buildParams (wildNames l.pattern) exp) with
    | none =>
      simp only [Router.Route, hfind]
      rw [if_neg h404, hc]
    | some cn =>
      simp only [Router.Route, hfind]
      rw [if_neg h404, hc]
      simp only [substHalf, hp, hn]

/-- C9 witness: route GET /x :c.Show has a variablized controller but
its path captures nothing, and matching /x panics. -/
theorem c9_uncaptured_placeholder_panics_witness :
    (mkRouter [c9_route]).Route ⟨"GET", "/x"⟩ = .panicked :=
  c9_uncaptured_placeholder_panics (mkRouter [c9_route]) ⟨"GET", "/x"⟩
    ⟨["GET", "x"], c9_route⟩ [] (by decide) (by decide)
    (Or.inl ⟨0, by decide, by decide⟩)

/-- C2 amended: for a variablized controller half, a leading-position
placeholder is replaced entirely by the captured value; a non-leading
placeholder keeps only the literal prefix strictly before the colon and
the colon itself is consumed by the substitution (Module:ctrl with
ctrl=users resolves to Moduleusers). -/
theorem c2_substitution_amended (router : Router) (req : Request) (l : Leaf)
    (exp : List String) (pos : Nat) (v : String) (vs : List String)
    (hfind : router.Tree.Find (treePath req.Method req.Path) = some (l, exp))
    (h404 : l.route.Action ≠ "404")
    (hc : lastColon l.route.ControllerName = some pos)
    (hv : getParam (strDrop l.route.ControllerName (pos + 1))
            (buildParams (wildNames l.pattern) exp) = some (v :: vs))
    (hm : lastColon l.route.MethodName = none) :
    router.Route req = .found
      { Action := ""
        ControllerName := if pos = 0 then v else strTake l.route.ControllerName pos ++ v
        MethodName := l.route.MethodName
        FixedParams := l.route.FixedParams
        Params := buildParams (wildNames l.pattern) exp } := by
  by_cases hpos : pos = 0
  · subst hpos
    simp only [Router.Route, hfind]
    rw [if_neg h404]
    simp [substHalf, hc, hv, hm]
  · simp only [Router.Route, hfind]
    rw [if_neg h404]
    simp [substHalf, hc, hv, hm, hpos]

/-- C2 witness: route GET /admin/:cx Adm:cx.Show matching /admin/users
resolves the controller to Admusers (prefix Adm kept, colon consumed). -/
theorem c2_substitution_amended_witness :
    c2w_router.Route ⟨"GET", "/admin/users"⟩ = .found
      { Action := "", ControllerName := "Admusers", MethodName := "Show",
        FixedParams := [], Params := [("cx", ["users"])] } := by
  have h := c2_substitution_amended c2w_router ⟨"GET", "/admin/users"⟩
    ⟨["GET", "admin", ":cx"], c2w_route⟩ ["users"] 3 "users" []
    (by decide) (by decide) (by decide) (by decide) (by decide)
  exact h.trans (by decide)

/-- C3 amended: the target is split on every dot, so only a target with
exactly one dot yields a namespace and member (each with one trailing
semicolon stripped, and only when the part is longer than a single
character); any other number of dots, including A.B.C, leaves both
empty. -/
theorem c3_split_amended (method p action fixedArgs rp : String) (ln : Nat)
    (hp : strHasPfx "/" p = true) :
    ((goSplit action '.').length ≠ 2 →
       (NewRoute method p action fixedArgs rp ln).ControllerName = "" ∧
       (NewRoute method p action fixedArgs rp ln).MethodName = "") ∧
    (∀ a b, goSplit action '.' = [a, b] →
       (NewRoute method p action fixedArgs rp ln).ControllerName =
         (if 1 < a.data.length ∧ a.data.getLast? = some ';' then String.mk a.data.dropLast else a) ∧
       (NewRoute method p action fixedArgs rp ln).MethodName =
         (if 1 < b.data.length ∧ b.data.getLast? = some ';' then String.mk b.data.dropLast else b)) := by
  constructor
  · intro hlen
    rcases hsplit : goSplit action '.' with _ | ⟨a, _ | ⟨b, _ | ⟨c, tl⟩⟩⟩
    · simp [NewRoute, hp, hsplit]
    · simp [NewRoute, hp, hsplit]
    · exact absurd (by simp [hsplit]) hlen
    · simp [NewRoute, hp, hsplit]
  · intro a b hsplit
    have hstrip : ∀ s : String,
        stripSemi s =
          (if 1 < s.data.length ∧ s.data.getLast? = some ';' then String.mk s.data.dropLast else s) := by
      intro s
      unfold stripSemi strTake
      rw [List.dropLast_eq_take]
    simp [NewRoute, hp, hsplit, hstrip]

/-- C3 witness: Hotels;.Show; has its semicolons stripped, while the
three-part target A.B.C leaves the names empty. -/
theorem c3_split_amended_witness :
    (NewRoute "GET" "/h" "Hotels;.Show;" "" "" 0).ControllerName = "Hotels" ∧
    (NewRoute "GET" "/h" "Hotels;.Show;" "" "" 0).MethodName = "Show" ∧
    (NewRoute "GET" "/y" "A.B.C" "" "" 1).ControllerName = "" := by
  have h1 := (c3_split_amended "GET" "/h" "Hotels;.Show;" "" "" 0 (by decide)).2
    "Hotels;" "Show;" (by decide)
  have h2 := (c3_split_amended "GET" "/y" "A.B.C" "" "" 1 (by decide)).1 (by decide)
  exact ⟨h1.1.trans (by decide), h1.2.trans (by decide), h2.1⟩

/-- C4 amended: a path without a leading slash is only logged as an
error; the constructor returns the descriptor with empty namespace and
member and the original path, and such a descriptor still passes
validation, is kept by parseRoutes and registers in the tree. -/
theorem c4_path_amended :
    (∀ (method p action fixedArgs rp : String) (ln : Nat), strHasPfx "/" p = false →
       (NewRoute method p action fixedArgs rp ln).ControllerName = "" ∧
       (NewRoute method p action fixedArgs rp ln).MethodName = "" ∧
       (NewRoute method p action fixedArgs rp ln).Path = p) ∧
    validateRoute aeAll (NewRoute "GET" "a/b" "A.B" "" "conf/routes" 0) = none ∧
    (parseRoutes mrNone aeAll "conf/routes" "GET a/b A.B" true).isOk = true ∧
    (updateTree [NewRoute "GET" "a/b" "A.B" "" "conf/routes" 0]).2 = none := by
  refine ⟨?_, by decide, by decide, by decide⟩
  intro method p action fixedArgs rp ln h
  refine ⟨?_, ?_, ?_⟩ <;> simp [NewRoute, h]

/-- C4 witness: the concrete descriptor for GET a/b A.B. -/
theorem c4_path_amended_witness :
    (NewRoute "GET" "a/b" "A.B" "" "conf/routes" 0).ControllerName = "" ∧
    (NewRoute "GET" "a/b" "A.B" "" "conf/routes" 0).Path = "a/b" ∧
    strHasPfx "/" "a/b" = false :=
  ⟨(c4_path_amended.1 "GET" "a/b" "A.B" "" "conf/routes" 0 (by decide)).1,
   (c4_path_amended.1 "GET" "a/b" "A.B" "" "conf/routes" 0 (by decide)).2.2,
   by decide⟩

/-- A successful Add appends exactly one leaf for the registered key. -/
theorem PathTree.add_entries (t t2 : PathTree) (k : String) (r : Revel.Route)
    (h : t.Add k r = some t2) : t2.entries = t.entries ++ [⟨segsOf k, r⟩] := by
  unfold PathTree.Add at h
  split at h
  · exact absurd h (by simp)
  · cases h
    rfl

/-- updateTreeAux only appends to the tree it is given: every leaf of
the starting tree is a leaf of the final tree. -/
theorem updateTreeAux_mono (routes : List Route) : ∀ (t0 t : PathTree) (e : Option RError),
    updateTreeAux t0 routes = (t, e) → ∀ l ∈ t0.entries, l ∈ t.entries := by
  induction routes with
  | nil =>
    intro t0 t e h l hl
    unfold updateTreeAux at h
    cases h
    exact hl
  | cons route rest ih =>
    intro t0 t e h l hl
    unfold updateTreeAux at h
    split at h
    · cases h
      exact hl
    · next t1 hadd =>
      have h1 : l ∈ t1.entries := by
        rw [PathTree.add_entries t0 t1 _ _ hadd]
        exact List.mem_append_left _ hl
      split at h
      · split at h
        · cases h
          exact h1
        · next t2 hadd2 =>
          have h2 : l ∈ t2.entries := by
            rw [PathTree.add_entries t1 t2 _ _ hadd2]
            exact List.mem_append_left _ h1
          exact ih t2 t e h l h2
      · exact ih t1 t e h l h1

/-- After a successful rebuild, every GET route has a leaf registered
under its HEAD-keyed path holding that same route. -/
theorem updateTreeAux_head_alias (routes : List Route) : ∀ (t0 t : PathTree),
    updateTreeAux t0 routes = (t, none) → ∀ r ∈ routes, r.Method = "GET" →
    ∃ l, l ∈ t.entries ∧ l.pattern = segsOf (treePath "HEAD" r.Path) ∧ l.route = r := by
  induction routes with
  | nil =>
    intro t0 t h r hr
    cases hr
  | cons route rest ih =>
    intro t0 t h r hr hg
    unfold updateTreeAux at h
    split at h
    · exact absurd (congrArg Prod.snd h) (by simp)
    · next t1 hadd =>
      split at h
      · next hgr =>
        split at h
        · exact absurd (congrArg Prod.snd h) (by simp)
        · next t2 hadd2 =>
          cases List.mem_cons.mp hr with
          | inl heq =>
            subst heq
            refine ⟨⟨segsOf (treePath "HEAD" r.Path), r⟩, ?_, rfl, rfl⟩
            have hmem : (⟨segsOf (treePath "HEAD" r.Path), r⟩ : Leaf) ∈ t2.entries := by
              rw [PathTree.add_entries t1 t2 _ _ hadd2]
              exact List.mem_append_right _ (List.mem_singleton.mpr rfl)
            exact updateTreeAux_mono rest t2 t none h _ hmem
          | inr hr2 => exact ih t2 t h r hr2 hg
      · next hgr =>
        cases List.mem_cons.mp hr with
        | inl heq =>
          subst heq
          exact absurd hg hgr
        | inr hr2 => exact ih t1 t h r hr2 hg

/-- C6 amended: the registration side effect stands: after a successful
rebuild, every GET descriptor has an implicit HEAD-keyed tree entry
pointing to the identical descriptor.  (What fails in the original claim
is only the resolution consequence: an earlier-declared route matching
the same HEAD-keyed path can win over the alias.) -/
theorem c6_head_alias_amended (routes : List Route) (t : PathTree) (r : Route)
    (h : updateTree routes = (t, none)) (hr : r ∈ routes) (hg : r.Method = "GET") :
    ∃ l, l ∈ t.entries ∧ l.pattern = segsOf (treePath "HEAD" r.Path) ∧ l.route = r :=
  updateTreeAux_head_alias routes PathTree.new t h r hr hg

/-- C6 witness: the single GET route /w registers a HEAD alias carrying
the same descriptor. -/
theorem c6_head_alias_amended_witness :
    ∃ l, l ∈ ((updateTree [c6w_route]).1).entries ∧
      l.pattern = segsOf (treePath "HEAD" c6w_route.Path) ∧ l.route = c6w_route :=
  c6_head_alias_amended [c6w_route] (updateTree [c6w_route]).1 c6w_route rfl
    (by decide) (by decide)

/-- splitOnChar never returns the empty list of groups. -/
theorem splitOnChar_ne_nil (c : Char) (cs : List Char) : splitOnChar c cs ≠ [] := by
  induction cs with
  | nil => simp [splitOnChar]
  | cons a rest ih =>
    show ¬(match splitOnChar c rest with
           | [] => [[]]
           | g :: gs => if a == c then [] :: g :: gs else (a :: g) :: gs) = []
    cases h : splitOnChar c rest with
    | nil => simp
    | cons g gs =>
      by_cases hac : a == c
      · simp [hac]
      · simp [hac]

/-- Splitting at a leading separator emits one empty group. -/
theorem splitOnChar_cons_self (c : Char) (cs : List Char) :
    splitOnChar c (c :: cs) = [] :: splitOnChar c cs := by
  show (match splitOnChar c cs with
        | [] => [[]]
        | g :: gs => if c == c then [] :: g :: gs else (c :: g) :: gs) = [] :: splitOnChar c cs
  cases h : splitOnChar c cs with
  | nil => exact absurd h (splitOnChar_ne_nil c cs)
  | cons g gs => simp

/-- A separator-free chunk before a separator becomes one group. -/
theorem splitOnChar_no_sep (c : Char) : ∀ (cs ds : List Char), c ∉ cs →
    splitOnChar c (cs ++ c :: ds) = cs :: splitOnChar c ds := by
  intro cs
  induction cs with
  | nil =>
    intro ds _
    exact splitOnChar_cons_self c ds
  | cons a as ih =>
    intro ds h
    have hac : (a == c) = false := by
      apply beq_eq_false_iff_ne.mpr
      intro hEq
      exact h (by rw [← hEq]; exact List.mem_cons_self a as)
    rw [List.cons_append]
    show (match splitOnChar c (as ++ c :: ds) with
          | [] => [[]]
          | g :: gs => if a == c then [] :: g :: gs else (a :: g) :: gs) =
        (a :: as) :: splitOnChar c ds
    rw [ih ds (fun hm => h (List.mem_cons_of_mem a hm))]
    simp [hac]

/-- The tree key of a concrete (non-star, slash-free) method for the
route path /x splits into the method segment and the literal segment. -/
theorem segsOf_method (m : String) (hm : '/' ∉ m.data) (hstar : m ≠ "*") :
    segsOf (treePath m "/x") = [m, "x"] := by
  obtain ⟨md⟩ := m
  unfold treePath
  rw [if_neg hstar]
  show ((splitOnChar '/' ('/' :: (md ++ ['/', 'x']))).map String.mk).drop 1 = [⟨md⟩, "x"]
  rw [splitOnChar_cons_self, splitOnChar_no_sep '/' md ['x'] hm]
  rfl

/-- The method placeholder pattern captures the method segment. -/
theorem matchSegs_method (m : String) : matchSegs [":METHOD", "x"] [m, "x"] = some [m] := by
  simp [matchSegs, strHasPfx, listPfx]

/-- C8: a rule with method * is keyed under the placeholder segment
:METHOD, matches a request of any (slash-free, non-star) method with
the method captured as the METHOD parameter, and reverse-routing
through it reports method GET with the Star flag set. -/
theorem c8_star_method (m : String) (hm : '/' ∉ m.data) (hstar : m ≠ "*") :
    c8_route.TreePath = "/:METHOD/x" ∧
    c8_router.Route ⟨m, "/x"⟩ =
      .found { Action := "", ControllerName := "A", MethodName := "B",
               FixedParams := [], Params := [("METHOD", [m])] } ∧
    c8_router.Reverse "A.B" [] =
      .found { Host := "TODO", Method := "GET", Url := "/x", Action := "A.B",
               Star := true, Args := [] } := by
  refine ⟨by decide, ?_, by decide⟩
  have hfind : c8_router.Tree.Find (treePath m "/x") =
      some (⟨[":METHOD", "x"], c8_route⟩, [m]) := by
    show findLeaf (segsOf (treePath m "/x")) [⟨[":METHOD", "x"], c8_route⟩] = _
    rw [segsOf_method m hm hstar]
    simp [findLeaf, matchSegs_method]
  have hparams : buildParams (wildNames [":METHOD", "x"]) [m] = [("METHOD", [m])] := by
    simp [buildParams, wildNames, setParam, strHasPfx, listPfx, strDrop]
  simp only [Router.Route, hfind]
  rw [if_neg (show ¬(c8_route.Action = "404") by decide)]
  simp [substHalf, lastColon, lastIdx, hparams,
    show c8_route.ControllerName = "A" from rfl,
    show c8_route.MethodName = "B" from rfl,
    show c8_route.FixedParams = ([] : List String) from rfl]

/-- C8 witness at the concrete method DELETE. -/
theorem c8_star_method_witness :
    c8_router.Route ⟨"DELETE", "/x"⟩ =
      .found { Action := "", ControllerName := "A", MethodName := "B",
               FixedParams := [], Params := [("METHOD", ["DELETE"])] } :=
  (c8_star_method "DELETE" (by decide) (by decide)).2.1

end Revel
